import Mathlib

/-!
Shallow embedding of the WarpDrive `CUDASampler`: registration of named
action variables, global seeding of per-thread random states, and the
massively parallel inverse-CDF categorical sampling kernel.

The repository's source files are the tutorial notebooks, which construct a
`CUDASampler`, call `init_random`, `register_actions` and `sample`, and read
the sampled action buffers; the sampler implementation itself is not among
the source files.  The operations below are therefore modelled from the
design specification (per-thread counter-based random streams, the
inverse-CDF scan with inclusive tie-break and last-index clamping, the
name-keyed registry with `DuplicateRegistration` / `NotRegistered` /
`ShapeMismatch` / `NotSeeded` failures, and global reseeding scope).
-/

namespace WarpDrive

/-- Modelled from the spec: one per-thread generator state for a
`(replica, agent, action-variable)` slot — a pure function of the derived
thread seed and the number of prior draws (counter-based construction);
the sampler implementation is missing from the source files. -/
structure RandomState where
  threadSeed : Nat
  drawCount : Nat
deriving DecidableEq

/-- Modelled from the spec: the per-thread seed is a deterministic function
of `(global_seed, linear_thread_index)` via an injective counter-based
pairing, so that no two thread slots share a state. -/
def threadSeedOf (globalSeed lin : Nat) : Nat := Nat.pair globalSeed lin

/-- Modelled from the spec: `next_uniform` — the uniform value in `[0, 1)`
a thread produces, a pure function of its thread seed and its draw count,
through an injective counter-based encoding; equal to
`pair ts count / (pair ts count + 1)` (see `uniformDraw_eq`). -/
def uniformDraw (ts count : Nat) : ℚ :=
  mkRat (Nat.pair ts count) (Nat.pair ts count + 1)

/-- Rational addition in kernel-computable form (numerator/denominator
cross-multiplication); equal to `+` (see `qadd_eq`). -/
def qadd (a b : ℚ) : ℚ :=
  mkRat (a.num * b.den + b.num * a.den) (a.den * b.den)

/-- Modelled from the spec: the kernel's per-thread scan — running cumulative
sum of the probability row in index order, returning the first index whose
cumulative sum reaches `u` (inclusive `>=` tie-break), or `row.length` when
the whole row falls short of `u`.  `acc` is the running sum so far. -/
def pick (u acc : ℚ) : List ℚ → Nat
  | [] => 0
  | p :: rest => if u ≤ qadd acc p then 0 else pick u (qadd acc p) rest + 1

/-- Modelled from the spec: the action index one thread writes — the smallest
index whose cumulative sum reaches `u`, clamped to the last valid index
`num_actions - 1` on floating-point shortfall. -/
def sampleIndex (row : List ℚ) (u : ℚ) : Nat :=
  min (pick u 0 row) (row.length - 1)

/-- Cumulative sum of a distribution row through index `j`, inclusive. -/
def cumSum (row : List ℚ) (j : Nat) : ℚ := (row.take (j + 1)).sum

/-- A caller-supplied distribution: a 3-D array of probabilities of shape
`(num_replicas, num_agents, num_actions)`. -/
abbrev Dist3 := List (List (List ℚ))

/-- Modelled from the spec: a registered action variable — its action-space
cardinality, its sampled-output buffer of shape `(num_replicas, num_agents)`,
and its own block of per-thread random states of the same shape. -/
structure ActionVariable where
  num_actions : Nat
  output_buffer : List (List Nat)
  randState : List (List RandomState)
deriving DecidableEq

/-- Modelled from the spec: the error taxonomy surfaced synchronously by
registration and sampling calls. -/
inductive SamplerError where
  | DuplicateRegistration
  | NotRegistered
  | ShapeMismatch
  | NotSeeded
deriving DecidableEq

/-- Modelled from the spec: the sampler facade state — replica/agent counts
fixed at construction, the name-keyed registry of action variables, and the
global seed (`none` until `init_random` has been called). -/
structure Sampler where
  num_replicas : Nat
  num_agents : Nat
  registry : List (String × ActionVariable)
  globalSeed : Option Nat
deriving DecidableEq

/-- Name lookup in the registry association list. -/
def lookupVar : List (String × ActionVariable) → String → Option ActionVariable
  | [], _ => none
  | (n, v) :: rest, name => if n = name then some v else lookupVar rest name

/-- Replace the variable stored under `name`, if present. -/
def updateVar : List (String × ActionVariable) → String → ActionVariable →
    List (String × ActionVariable)
  | [], _, _ => []
  | (n, v) :: rest, name, v' =>
    if n = name then (n, v') :: rest else (n, v) :: updateVar rest name v'

/-- A fresh sampler with no registrations and no seed. -/
def mkSampler (numReplicas numAgents : Nat) : Sampler :=
  ⟨numReplicas, numAgents, [], none⟩

/-- Modelled from the spec: the seeded random-state block for one action
variable — thread slot `(r, a)` gets the seed derived from the global seed
and its linear thread index `r * num_agents + a`, with draw count zero. -/
def initStates (g numReplicas numAgents : Nat) : List (List RandomState) :=
  (List.range numReplicas).map fun r =>
    (List.range numAgents).map fun a =>
      ⟨threadSeedOf g (r * numAgents + a), 0⟩

/-- Modelled from the spec: the zero-initialized (allocated but unseeded)
random-state block created at registration before any seeding. -/
def zeroStates (numReplicas numAgents : Nat) : List (List RandomState) :=
  List.replicate numReplicas (List.replicate numAgents ⟨0, 0⟩)

/-- The zero-filled output buffer bound at registration. -/
def zeroBuf (numReplicas numAgents : Nat) : List (List Nat) :=
  List.replicate numReplicas (List.replicate numAgents 0)

/-- Modelled from the spec: the effect of a global reseed on one registered
variable — its whole random-state block is re-initialized from the global
seed. -/
def reseedVar (g numReplicas numAgents : Nat) (v : ActionVariable) :
    ActionVariable :=
  { v with randState := initStates g numReplicas numAgents }

/-- Modelled from the spec: `init_random` / `seed_all` — records the global
seed and re-initializes the random-state block of **every** registered
action variable (global reseed scope). -/
def init_random (s : Sampler) (g : Nat) : Sampler :=
  { s with
    globalSeed := some g
    registry := s.registry.map fun nv =>
      (nv.1, reseedVar g s.num_replicas s.num_agents nv.2) }

/-- Modelled from the spec: `register_actions` — fails with
`DuplicateRegistration` when the name is already registered; otherwise
allocates the zeroed output buffer and the random-state block (seeded from
the current global seed when the sampler is already seeded). -/
def register_actions (s : Sampler) (name : String) (numActions : Nat) :
    Sampler × Option SamplerError :=
  if (lookupVar s.registry name).isSome then
    (s, some SamplerError.DuplicateRegistration)
  else
    ({ s with
        registry := s.registry ++
          [(name,
            ⟨numActions, zeroBuf s.num_replicas s.num_agents,
              match s.globalSeed with
              | some g => initStates g s.num_replicas s.num_agents
              | none => zeroStates s.num_replicas s.num_agents⟩)] },
      none)

/-- One replica slice of the shape check: `num_agents` rows, each of length
`num_actions`. -/
def rowShapeOk (numAgents numActions : Nat) (rows : List (List ℚ)) : Bool :=
  rows.length == numAgents && rows.all fun row => row.length == numActions

/-- Modelled from the spec: the extent check of a supplied distribution
against the registered `(num_replicas, num_agents, num_actions)`. -/
def distShapeOk (numReplicas numAgents numActions : Nat) (d : Dist3) : Bool :=
  d.length == numReplicas && d.all (rowShapeOk numAgents numActions)

/-- Modelled from the spec: the output grid of one kernel launch — thread
`(r, a)` draws its uniform from its own state and writes the inverse-CDF
index for its row. -/
def kernelOut (d : Dist3) (rs : List (List RandomState)) : List (List Nat) :=
  List.zipWith
    (fun drow srow =>
      List.zipWith
        (fun row st => sampleIndex row (uniformDraw st.threadSeed st.drawCount))
        drow srow)
    d rs

/-- One thread's state after its single draw of a sample call. -/
def advance (st : RandomState) : RandomState := ⟨st.threadSeed, st.drawCount + 1⟩

/-- Modelled from the spec: each thread of the launched block advances its
own stream by exactly one draw. -/
def advanceBlock (rs : List (List RandomState)) : List (List RandomState) :=
  rs.map (List.map advance)

/-- Modelled from the spec: the writes of one kernel launch — the
distribution region is only read (returned as supplied); the variable's
output buffer and random-state block are overwritten. -/
def kernelWrites (d : Dist3) (v : ActionVariable) : Dist3 × ActionVariable :=
  (d, { v with
          output_buffer := kernelOut d v.randState
          randState := advanceBlock v.randState })

/-- Modelled from the spec: `sample` — resolves the registry entry
(`NotRegistered` when absent), validates the supplied distribution's extent
(`ShapeMismatch`), requires seeding (`NotSeeded`), then launches the kernel:
one thread per `(r, a)` slot draws once and writes its action index.
Returns the new sampler state, the distribution buffer contents after the
call, and the error surfaced at the call, if any. -/
def sample (s : Sampler) (name : String) (d : Dist3) :
    Sampler × Dist3 × Option SamplerError :=
  match lookupVar s.registry name with
  | none => (s, d, some SamplerError.NotRegistered)
  | some v =>
    if distShapeOk s.num_replicas s.num_agents v.num_actions d then
      match s.globalSeed with
      | none => (s, d, some SamplerError.NotSeeded)
      | some _ =>
        let w := kernelWrites d v
        ({ s with registry := updateVar s.registry name w.2 }, w.1, none)
    else (s, d, some SamplerError.ShapeMismatch)

/-- The action buffer the caller reads back after a call (the notebook's
`data_on_device_via_torch(action_name)`). -/
def outputOf (s : Sampler) (name : String) : List (List Nat) :=
  match lookupVar s.registry name with
  | some v => v.output_buffer
  | none => []

/-- The probability row supplied for thread `(r, a)`. -/
def distRow (d : Dist3) (r a : Nat) : List ℚ := (d.getD r []).getD a []

/-- The random state of thread `(r, a)` of a variable. -/
def stateAt (v : ActionVariable) (r a : Nat) : RandomState :=
  (v.randState.getD r []).getD a ⟨0, 0⟩

/-- The uniform value thread `(r, a)` draws on the next sample call. -/
def stateDraw (v : ActionVariable) (r a : Nat) : ℚ :=
  uniformDraw (stateAt v r a).threadSeed (stateAt v r a).drawCount

/-- The sampled action read back at cell `(r, a)`. -/
def outCell (s : Sampler) (name : String) (r a : Nat) : Nat :=
  ((outputOf s name).getD r []).getD a 0

/-- A sequence of sample calls, recording after each call the action buffer
of the variable just sampled (exactly the notebook's read-back loop). -/
def runCalls (s : Sampler) : List (String × Dist3) → List (List (List Nat))
  | [] => []
  | (name, d) :: cs =>
    outputOf (sample s name d).1 name :: runCalls (sample s name d).1 cs

/-- Repeated sample calls on one variable reusing a single distribution
buffer, threading the buffer contents through every call. -/
def runShared (name : String) : Sampler × Dist3 → Nat → Sampler × Dist3
  | sd, 0 => sd
  | sd, k + 1 =>
    runShared name ((sample sd.1 name sd.2).1, (sample sd.1 name sd.2).2.1) k

/-- A one-hot probability row: probability `1` at index `k`, `0` at the `k`
earlier and `t` later indices. -/
def oneHotRow (k t : Nat) : List ℚ :=
  List.replicate k 0 ++ 1 :: List.replicate t 0

/-- A concrete seeded sampler (1 replica, 1 agent, seed 1, one registered
variable of 2 actions) used to instantiate the theorems below. -/
def wSampler : Sampler := (register_actions (init_random (mkSampler 1 1) 1) "a" 2).1

/-- The registered variable of `wSampler`. -/
def wVar : ActionVariable := (lookupVar wSampler.registry "a").getD ⟨0, [], []⟩

/-- A concrete well-shaped distribution for `wSampler`. -/
def wDist : Dist3 := [[[mkRat 1 2, mkRat 1 2]]]

/-- A concrete one-hot distribution (probability 1 at index 1) for
`wSampler`. -/
def wHotDist : Dist3 := [[oneHotRow 1 0]]

/-- A concrete badly-shaped distribution for `wSampler` (1 action instead of
the registered 2). -/
def wBadDist : Dist3 := [[[1]]]

/-- A concrete sampler seeded with 0, whose single thread's first uniform
draw is exactly 0. -/
def cSampler : Sampler :=
  (register_actions (init_random (mkSampler 1 1) 0) "hot" 2).1

/-- The registered variable of `cSampler`. -/
def cVar : ActionVariable := (lookupVar cSampler.registry "hot").getD ⟨0, [], []⟩

/-- An unseeded sampler (2 replicas, 2 agents) with one registered variable,
used to instantiate the seeding theorems. -/
def uSampler : Sampler := (register_actions (mkSampler 2 2) "b" 3).1

/-- The variable of `uSampler` after a later `init_random` with seed 7. -/
def uVar : ActionVariable :=
  (lookupVar (init_random uSampler 7).registry "b").getD ⟨0, [], []⟩

/-- A seeded sampler with nothing registered yet, used to instantiate the
seed-before-registration theorem. -/
def pSampler : Sampler := init_random (mkSampler 1 1) 5

/-- `pSampler` after registering a 1-action variable. -/
def pSampler' : Sampler := (register_actions pSampler "x" 1).1

/-- A well-shaped distribution for `pSampler'`. -/
def pDist : Dist3 := [[[1]]]

theorem qadd_eq (a b : ℚ) : qadd a b = a + b := by
  unfold qadd
  have ha : ((a.den : ℚ)) ≠ 0 := by exact_mod_cast a.den_nz
  have hb : ((b.den : ℚ)) ≠ 0 := by exact_mod_cast b.den_nz
  rw [Rat.mkRat_eq_div]
  conv_rhs => rw [← Rat.num_div_den a, ← Rat.num_div_den b]
  rw [div_add_div _ _ ha hb]
  push_cast
  ring_nf

theorem pick_cons (u acc p : ℚ) (rest : List ℚ) :
    pick u acc (p :: rest) =
      if u ≤ acc + p then 0 else pick u (acc + p) rest + 1 := by
  simp [pick, qadd_eq]

theorem uniformDraw_eq (ts count : Nat) :
    uniformDraw ts count =
      (Nat.pair ts count : ℚ) / ((Nat.pair ts count : ℚ) + 1) := by
  unfold uniformDraw
  rw [Rat.mkRat_eq_div]
  push_cast
  ring_nf

theorem uniformDraw_nonneg (ts count : Nat) : 0 ≤ uniformDraw ts count := by
  rw [uniformDraw_eq]
  positivity

theorem uniformDraw_lt_one (ts count : Nat) : uniformDraw ts count < 1 := by
  rw [uniformDraw_eq]
  rw [div_lt_one (by positivity)]
  linarith

theorem natRatio_inj {x y : Nat}
    (h : (x : ℚ) / (x + 1) = (y : ℚ) / (y + 1)) : x = y := by
  have hx : ((x : ℚ) + 1) ≠ 0 := by positivity
  have hy : ((y : ℚ) + 1) ≠ 0 := by positivity
  rw [div_eq_div_iff hx hy] at h
  have h' : (x : ℚ) = y := by ring_nf at h; linarith
  exact_mod_cast h'

theorem uniformDraw_inj {ts ts' count : Nat} (h : ts ≠ ts') :
    uniformDraw ts count ≠ uniformDraw ts' count := by
  intro he
  rw [uniformDraw_eq, uniformDraw_eq] at he
  exact h (Nat.pair_eq_pair.mp (natRatio_inj he)).1

theorem pick_le_length (u acc : ℚ) (row : List ℚ) :
    pick u acc row ≤ row.length := by
  induction row generalizing acc with
  | nil => simp [pick]
  | cons p rest ih =>
    rw [pick_cons, List.length_cons]
    split
    · exact Nat.zero_le _
    · exact Nat.succ_le_succ (ih (acc + p))

theorem pick_found (u acc : ℚ) (row : List ℚ)
    (h : pick u acc row < row.length) :
    u ≤ acc + (row.take (pick u acc row + 1)).sum := by
  induction row generalizing acc with
  | nil => simp [pick] at h
  | cons p rest ih =>
    rw [pick_cons] at h ⊢
    by_cases hle : u ≤ acc + p
    · rw [if_pos hle]
      simpa using hle
    · rw [if_neg hle] at h ⊢
      have hrec : pick u (acc + p) rest < rest.length := by
        simpa using h
      have hih := ih (acc + p) hrec
      simp only [List.take_succ_cons, List.sum_cons]
      linarith

theorem pick_min (u acc : ℚ) (row : List ℚ) (j : Nat)
    (hj : j < pick u acc row) :
    acc + (row.take (j + 1)).sum < u := by
  induction row generalizing acc j with
  | nil => simp [pick] at hj
  | cons p rest ih =>
    rw [pick_cons] at hj
    by_cases hle : u ≤ acc + p
    · rw [if_pos hle] at hj
      exact absurd hj (Nat.not_lt_zero j)
    · rw [if_neg hle] at hj
      cases j with
      | zero => simpa using lt_of_not_le hle
      | succ j' =>
        have := ih (acc + p) j' (Nat.lt_of_succ_lt_succ hj)
        simp only [List.take_succ_cons, List.sum_cons]
        linarith

theorem pick_eq_length (u acc : ℚ) (row : List ℚ)
    (h : ∀ j, j < row.length → acc + (row.take (j + 1)).sum < u) :
    pick u acc row = row.length := by
  induction row generalizing acc with
  | nil => simp [pick]
  | cons p rest ih =>
    have h0 : acc + p < u := by simpa using h 0 (by simp)
    have hle : ¬ u ≤ acc + p := not_le.mpr h0
    rw [pick_cons, if_neg hle]
    simp only [List.length_cons, Nat.succ_inj]
    refine ih (acc + p) (fun j hj => ?_)
    have := h (j + 1) (by simpa using Nat.succ_lt_succ hj)
    simp only [List.take_succ_cons, List.sum_cons] at this
    linarith

theorem sampleIndex_lt_length (row : List ℚ) (u : ℚ) (h : row ≠ []) :
    sampleIndex row u < row.length := by
  have hlen : 0 < row.length := List.length_pos.mpr h
  have : row.length - 1 < row.length := Nat.sub_lt hlen Nat.one_pos
  exact lt_of_le_of_lt (min_le_right _ _) this

theorem sampleIndex_found (row : List ℚ) (u : ℚ)
    (h : ∃ j, j < row.length ∧ u ≤ cumSum row j) :
    u ≤ cumSum row (sampleIndex row u) ∧
      ∀ j, j < sampleIndex row u → cumSum row j < u := by
  obtain ⟨j, hj, hju⟩ := h
  have hpick : pick u 0 row < row.length := by
    rcases Nat.lt_or_ge (pick u 0 row) row.length with hlt | hge
    · exact hlt
    · exfalso
      have hj' : j < pick u 0 row := lt_of_lt_of_le hj hge
      have := pick_min u 0 row j hj'
      rw [zero_add] at this
      exact absurd hju (not_le.mpr this)
  have hmin : sampleIndex row u = pick u 0 row := by
    unfold sampleIndex
    exact Nat.min_eq_left (Nat.le_sub_one_of_lt hpick)
  constructor
  · rw [hmin]
    have := pick_found u 0 row hpick
    rw [zero_add] at this
    exact this
  · intro i hi
    rw [hmin] at hi
    have := pick_min u 0 row i hi
    rw [zero_add] at this
    exact this

theorem sampleIndex_shortfall (row : List ℚ) (u : ℚ)
    (h : ∀ j, j < row.length → cumSum row j < u) :
    sampleIndex row u = row.length - 1 := by
  have : pick u 0 row = row.length := by
    refine pick_eq_length u 0 row (fun j hj => ?_)
    rw [zero_add]
    exact h j hj
  unfold sampleIndex
  rw [this]
  exact Nat.min_eq_right (Nat.sub_le _ _)

theorem sampleIndex_eq_of (row : List ℚ) (u : ℚ) (m : Nat)
    (hm : m < row.length) (hfound : u ≤ cumSum row m)
    (hmin : ∀ j, j < m → cumSum row j < u) :
    sampleIndex row u = m := by
  have hex : ∃ j, j < row.length ∧ u ≤ cumSum row j := ⟨m, hm, hfound⟩
  obtain ⟨hk1, hk2⟩ := sampleIndex_found row u hex
  rcases Nat.lt_trichotomy (sampleIndex row u) m with hlt | heq | hgt
  · exact absurd hk1 (not_le.mpr (hmin _ hlt))
  · exact heq
  · exact absurd hfound (not_le.mpr (hk2 m hgt))

theorem lookupVar_updateVar_self (reg : List (String × ActionVariable))
    (name : String) (v v' : ActionVariable)
    (h : lookupVar reg name = some v) :
    lookupVar (updateVar reg name v') name = some v' := by
  induction reg with
  | nil => simp [lookupVar] at h
  | cons nv rest ih =>
    obtain ⟨n, w⟩ := nv
    by_cases hn : n = name
    · simp [lookupVar, updateVar, hn]
    · simp only [lookupVar, updateVar, hn, if_false] at h ⊢
      exact ih h

theorem lookupVar_updateVar_ne (reg : List (String × ActionVariable))
    (name n' : String) (v' : ActionVariable) (h : n' ≠ name) :
    lookupVar (updateVar reg name v') n' = lookupVar reg n' := by
  induction reg with
  | nil => rfl
  | cons nv rest ih =>
    obtain ⟨n, w⟩ := nv
    by_cases hn : n = name
    · subst hn
      have hne : ¬ (n = n') := fun he => h he.symm
      simp [updateVar, lookupVar, hne]
    · simp [updateVar, lookupVar, hn, ih]

theorem lookupVar_append_self (reg : List (String × ActionVariable))
    (name : String) (v : ActionVariable) (h : lookupVar reg name = none) :
    lookupVar (reg ++ [(name, v)]) name = some v := by
  induction reg with
  | nil => simp [lookupVar]
  | cons nv rest ih =>
    obtain ⟨n, w⟩ := nv
    by_cases hn : n = name
    · simp [lookupVar, hn] at h
    · simp only [lookupVar, hn, if_false, List.cons_append] at h ⊢
      exact ih h

theorem distShapeOk_spec {R A n : Nat} {d : Dist3}
    (h : distShapeOk R A n d = true) :
    d.length = R ∧ ∀ r, r < R →
      (d.getD r []).length = A ∧ ∀ a, a < A → (distRow d r a).length = n := by
  unfold distShapeOk at h
  rw [Bool.and_eq_true, beq_iff_eq, List.all_eq_true] at h
  obtain ⟨hlen, hall⟩ := h
  refine ⟨hlen, fun r hr => ?_⟩
  have hr' : r < d.length := by rw [hlen]; exact hr
  have hrow := hall d[r] (List.getElem_mem hr')
  unfold rowShapeOk at hrow
  rw [Bool.and_eq_true, beq_iff_eq, List.all_eq_true] at hrow
  obtain ⟨hAlen, hallrow⟩ := hrow
  have hg : d.getD r [] = d[r] := List.getD_eq_getElem d [] hr'
  refine ⟨by rw [hg]; exact hAlen, fun a ha => ?_⟩
  have ha' : a < d[r].length := by rw [hAlen]; exact ha
  have hcell := hallrow d[r][a] (List.getElem_mem ha')
  rw [beq_iff_eq] at hcell
  unfold distRow
  rw [hg, List.getD_eq_getElem _ _ ha']
  exact hcell

theorem kernelOut_cell (d : Dist3) (rs : List (List RandomState)) (r a : Nat)
    (hr1 : r < d.length) (hr2 : r < rs.length)
    (ha1 : a < (d.getD r []).length) (ha2 : a < (rs.getD r []).length) :
    ((kernelOut d rs).getD r []).getD a 0 =
      sampleIndex (distRow d r a) (stateDraw ⟨0, [], rs⟩ r a) := by
  have hgd : d.getD r [] = d[r] := List.getD_eq_getElem d [] hr1
  have hgs : rs.getD r [] = rs[r] := List.getD_eq_getElem rs [] hr2
  rw [hgd] at ha1
  rw [hgs] at ha2
  have hrk : r < (kernelOut d rs).length := by
    unfold kernelOut
    rw [List.length_zipWith]
    exact lt_min hr1 hr2
  have hak : a < (kernelOut d rs)[r].length := by
    unfold kernelOut
    simp only [List.getElem_zipWith, List.length_zipWith]
    exact lt_min ha1 ha2
  rw [List.getD_eq_getElem _ _ hrk, List.getD_eq_getElem _ _ hak]
  unfold kernelOut stateDraw stateAt distRow
  simp only [List.getElem_zipWith]
  rw [hgd, hgs, List.getD_eq_getElem _ _ ha1, List.getD_eq_getElem _ _ ha2]

theorem advanceBlock_cell (rs : List (List RandomState)) (r a : Nat)
    (hr : r < rs.length) (ha : a < (rs.getD r []).length) :
    ((advanceBlock rs).getD r []).getD a ⟨0, 0⟩ =
      advance ((rs.getD r []).getD a ⟨0, 0⟩) := by
  have hgs : rs.getD r [] = rs[r] := List.getD_eq_getElem rs [] hr
  rw [hgs] at ha
  have hrb : r < (advanceBlock rs).length := by
    unfold advanceBlock
    rw [List.length_map]
    exact hr
  have hab : a < (advanceBlock rs)[r].length := by
    unfold advanceBlock
    simp only [List.getElem_map, List.length_map]
    exact ha
  rw [List.getD_eq_getElem _ _ hrb, List.getD_eq_getElem _ _ hab]
  unfold advanceBlock
  simp only [List.getElem_map]
  rw [hgs, List.getD_eq_getElem _ _ ha]

theorem initStates_cell (g R A r a : Nat) (hr : r < R) (ha : a < A) :
    ((initStates g R A).getD r []).getD a ⟨0, 0⟩ =
      ⟨threadSeedOf g (r * A + a), 0⟩ := by
  have hrl : r < (initStates g R A).length := by
    unfold initStates
    rw [List.length_map, List.length_range]
    exact hr
  have hal : a < (initStates g R A)[r].length := by
    unfold initStates
    simp only [List.getElem_map, List.length_map, List.length_range,
      List.getElem_range]
    exact ha
  rw [List.getD_eq_getElem _ _ hrl, List.getD_eq_getElem _ _ hal]
  unfold initStates
  simp only [List.getElem_map, List.getElem_range]

theorem sample_not_registered (s : Sampler) (name : String) (d : Dist3)
    (h : lookupVar s.registry name = none) :
    sample s name d = (s, d, some SamplerError.NotRegistered) := by
  unfold sample
  rw [h]

theorem sample_shape_mismatch (s : Sampler) (name : String) (d : Dist3)
    (v : ActionVariable) (hv : lookupVar s.registry name = some v)
    (hbad : distShapeOk s.num_replicas s.num_agents v.num_actions d = false) :
    sample s name d = (s, d, some SamplerError.ShapeMismatch) := by
  simp [sample, hv, hbad]

theorem sample_not_seeded (s : Sampler) (name : String) (d : Dist3)
    (v : ActionVariable) (hv : lookupVar s.registry name = some v)
    (hok : distShapeOk s.num_replicas s.num_agents v.num_actions d = true)
    (hg : s.globalSeed = none) :
    sample s name d = (s, d, some SamplerError.NotSeeded) := by
  simp [sample, hv, hok, hg]

theorem sample_success (s : Sampler) (name : String) (d : Dist3)
    (v : ActionVariable) (g : Nat) (hv : lookupVar s.registry name = some v)
    (hok : distShapeOk s.num_replicas s.num_agents v.num_actions d = true)
    (hg : s.globalSeed = some g) :
    sample s name d =
      ({ s with registry := updateVar s.registry name (kernelWrites d v).2 },
        d, none) := by
  simp [sample, kernelWrites, hv, hok, hg]

theorem sample_success_inv (s : Sampler) (name : String) (d : Dist3)
    (h : (sample s name d).2.2 = none) :
    ∃ v g, lookupVar s.registry name = some v ∧
      distShapeOk s.num_replicas s.num_agents v.num_actions d = true ∧
      s.globalSeed = some g := by
  cases hv : lookupVar s.registry name with
  | none => rw [sample_not_registered s name d hv] at h; simp at h
  | some v =>
    cases hok : distShapeOk s.num_replicas s.num_agents v.num_actions d with
    | false => rw [sample_shape_mismatch s name d v hv hok] at h; simp at h
    | true =>
      cases hg : s.globalSeed with
      | none => rw [sample_not_seeded s name d v hv hok hg] at h; simp at h
      | some g => exact ⟨v, g, rfl, hok, rfl⟩

theorem lookupVar_map (reg : List (String × ActionVariable))
    (f : ActionVariable → ActionVariable) (name : String) :
    lookupVar (reg.map fun nv => (nv.1, f nv.2)) name =
      Option.map f (lookupVar reg name) := by
  induction reg with
  | nil => rfl
  | cons nv rest ih =>
    obtain ⟨n, w⟩ := nv
    by_cases hn : n = name <;> simp [lookupVar, hn, ih]

theorem linearIdx_inj {A r a r' a' : Nat} (ha : a < A) (ha' : a' < A)
    (h : r * A + a = r' * A + a') : r = r' ∧ a = a' := by
  rcases Nat.lt_trichotomy r r' with hlt | heq | hgt
  · exfalso
    have h2 : r * A + A = (r + 1) * A := by ring
    have h3 : (r + 1) * A ≤ r' * A := Nat.mul_le_mul_right A hlt
    omega
  · subst heq
    exact ⟨rfl, by omega⟩
  · exfalso
    have h2 : r' * A + A = (r' + 1) * A := by ring
    have h3 : (r' + 1) * A ≤ r * A := Nat.mul_le_mul_right A hgt
    omega

theorem pick_oneHotRow (u : ℚ) (hu0 : 0 < u) (hu1 : u ≤ 1) (k t : Nat) :
    pick u 0 (oneHotRow k t) = k := by
  induction k with
  | zero => simp [oneHotRow, pick_cons, hu1]
  | succ k ih =>
    have hcons : oneHotRow (k + 1) t = 0 :: oneHotRow k t := by
      simp [oneHotRow, List.replicate_succ]
    rw [hcons, pick_cons]
    have hng : ¬ u ≤ 0 + 0 := by simpa using not_le.mpr hu0
    rw [if_neg hng]
    have h00 : (0 : ℚ) + 0 = 0 := by norm_num
    rw [h00, ih]

theorem sampleIndex_oneHotRow (u : ℚ) (hu0 : 0 < u) (hu1 : u ≤ 1)
    (k t : Nat) : sampleIndex (oneHotRow k t) u = k := by
  unfold sampleIndex
  rw [pick_oneHotRow u hu0 hu1 k t]
  have hlen : (oneHotRow k t).length - 1 = k + t := by
    simp [oneHotRow]
  rw [hlen]
  exact Nat.min_eq_left (Nat.le_add_right k t)

theorem sample_buf (s : Sampler) (name : String) (d : Dist3) :
    (sample s name d).2.1 = d := by
  cases hl : lookupVar s.registry name with
  | none => rw [sample_not_registered s name d hl]
  | some v =>
    cases hok : distShapeOk s.num_replicas s.num_agents v.num_actions d with
    | false => rw [sample_shape_mismatch s name d v hl hok]
    | true =>
      cases hgs : s.globalSeed with
      | none => rw [sample_not_seeded s name d v hl hok hgs]
      | some g => rw [sample_success s name d v g hl hok hgs]

theorem sample_out_cell (s : Sampler) (name : String) (d : Dist3)
    (v : ActionVariable) (hv : lookupVar s.registry name = some v)
    (he : (sample s name d).2.2 = none) (r a : Nat)
    (hr : r < s.num_replicas) (ha : a < s.num_agents)
    (hbr : r < v.randState.length)
    (hba : a < (v.randState.getD r []).length) :
    outCell (sample s name d).1 name r a =
      sampleIndex (distRow d r a) (stateDraw v r a) := by
  obtain ⟨v', g, hv', hok, hg⟩ := sample_success_inv s name d he
  have hveq : v' = v := by
    rw [hv] at hv'
    exact (Option.some.inj hv').symm
  subst hveq
  rw [sample_success s name d v' g hv' hok hg]
  unfold outCell outputOf
  rw [lookupVar_updateVar_self s.registry name v' (kernelWrites d v').2 hv']
  obtain ⟨hdl, hrows⟩ := distShapeOk_spec hok
  have hr1 : r < d.length := by rw [hdl]; exact hr
  have ha1 : a < (d.getD r []).length := by rw [(hrows r hr).1]; exact ha
  exact kernelOut_cell d v'.randState r a hr1 hbr ha1 hba

/-- C1: for every registered action variable and every successful sample
call, each `(replica, agent)` thread writes to `output_buffer[r, a]` the
smallest action index whose running cumulative sum of
`distribution[r, a, 0..i]`, computed in index order over the probabilities
exactly as given, is `>=` the thread's uniform draw, with the inclusive
`>=` tie-break assigning boundary mass to the lower index. -/
theorem sample_writes_least_qualifying_index
    (s : Sampler) (name : String) (d : Dist3) (v : ActionVariable)
    (hv : lookupVar s.registry name = some v)
    (he : (sample s name d).2.2 = none) (r a : Nat)
    (hr : r < s.num_replicas) (ha : a < s.num_agents)
    (hbr : r < v.randState.length)
    (hba : a < (v.randState.getD r []).length) :
    outCell (sample s name d).1 name r a =
        sampleIndex (distRow d r a) (stateDraw v r a) ∧
      ((∃ j, j < (distRow d r a).length ∧
          stateDraw v r a ≤ cumSum (distRow d r a) j) →
        stateDraw v r a ≤
            cumSum (distRow d r a) (outCell (sample s name d).1 name r a) ∧
          ∀ j, j < outCell (sample s name d).1 name r a →
            cumSum (distRow d r a) j < stateDraw v r a) := by
  have hc := sample_out_cell s name d v hv he r a hr ha hbr hba
  refine ⟨hc, fun hex => ?_⟩
  rw [hc]
  exact sampleIndex_found _ _ hex

/-- C1 witness: the inverse-CDF property instantiated at the concrete
sampler `wSampler`, thread `(0, 0)`. -/
theorem sample_writes_least_qualifying_index_w :
    outCell (sample wSampler "a" wDist).1 "a" 0 0 =
        sampleIndex (distRow wDist 0 0) (stateDraw wVar 0 0) ∧
      ((∃ j, j < (distRow wDist 0 0).length ∧
          stateDraw wVar 0 0 ≤ cumSum (distRow wDist 0 0) j) →
        stateDraw wVar 0 0 ≤
            cumSum (distRow wDist 0 0)
              (outCell (sample wSampler "a" wDist).1 "a" 0 0) ∧
          ∀ j, j < outCell (sample wSampler "a" wDist).1 "a" 0 0 →
            cumSum (distRow wDist 0 0) j < stateDraw wVar 0 0) :=
  sample_writes_least_qualifying_index wSampler "a" wDist wVar (by decide)
    (by decide) 0 0 (by decide) (by decide) (by decide) (by decide)

/-- C2: for every successful sample call on a registered variable with a
positive action-space cardinality, each output cell holds a valid index in
`[0, num_actions - 1]`; when no cumulative sum of the thread's row reaches
its uniform draw (floating-point shortfall), the result is clamped to
`num_actions - 1` rather than going out of range. -/
theorem sample_output_in_range
    (s : Sampler) (name : String) (d : Dist3) (v : ActionVariable)
    (hv : lookupVar s.registry name = some v)
    (he : (sample s name d).2.2 = none) (r a : Nat)
    (hr : r < s.num_replicas) (ha : a < s.num_agents)
    (hbr : r < v.randState.length)
    (hba : a < (v.randState.getD r []).length)
    (hn : 0 < v.num_actions) :
    outCell (sample s name d).1 name r a < v.num_actions ∧
      ((∀ j, j < (distRow d r a).length →
          cumSum (distRow d r a) j < stateDraw v r a) →
        outCell (sample s name d).1 name r a = v.num_actions - 1) := by
  have hc := sample_out_cell s name d v hv he r a hr ha hbr hba
  obtain ⟨v', g, hv', hok, hg⟩ := sample_success_inv s name d he
  have hveq : v' = v := by
    rw [hv] at hv'
    exact (Option.some.inj hv').symm
  subst hveq
  obtain ⟨hdl, hrows⟩ := distShapeOk_spec hok
  have hrowlen : (distRow d r a).length = v'.num_actions := (hrows r hr).2 a ha
  have hnil : distRow d r a ≠ [] := by
    intro hnil
    rw [hnil] at hrowlen
    simp at hrowlen
    omega
  constructor
  · rw [hc]
    have hlt := sampleIndex_lt_length (distRow d r a) (stateDraw v' r a) hnil
    rw [hrowlen] at hlt
    exact hlt
  · intro hall
    rw [hc, sampleIndex_shortfall _ _ hall, hrowlen]

/-- C2 witness: the in-range and clamping property instantiated at the
concrete sampler `wSampler`, thread `(0, 0)`. -/
theorem sample_output_in_range_w :
    outCell (sample wSampler "a" wDist).1 "a" 0 0 < wVar.num_actions ∧
      ((∀ j, j < (distRow wDist 0 0).length →
          cumSum (distRow wDist 0 0) j < stateDraw wVar 0 0) →
        outCell (sample wSampler "a" wDist).1 "a" 0 0 =
          wVar.num_actions - 1) :=
  sample_output_in_range wSampler "a" wDist wVar (by decide) (by decide) 0 0
    (by decide) (by decide) (by decide) (by decide) (by decide)

theorem outputOf_congr (s₁ s₂ : Sampler) (name : String)
    (h : lookupVar s₁.registry name = lookupVar s₂.registry name) :
    outputOf s₁ name = outputOf s₂ name := by
  unfold outputOf
  rw [h]

theorem sample_preserves_config (s : Sampler) (name : String) (d : Dist3) :
    (sample s name d).1.num_replicas = s.num_replicas ∧
      (sample s name d).1.num_agents = s.num_agents ∧
      (sample s name d).1.globalSeed = s.globalSeed := by
  cases hl : lookupVar s.registry name with
  | none => rw [sample_not_registered s name d hl]; exact ⟨rfl, rfl, rfl⟩
  | some v =>
    cases hok : distShapeOk s.num_replicas s.num_agents v.num_actions d with
    | false => rw [sample_shape_mismatch s name d v hl hok]; exact ⟨rfl, rfl, rfl⟩
    | true =>
      cases hgs : s.globalSeed with
      | none =>
        rw [sample_not_seeded s name d v hl hok hgs]
        exact ⟨rfl, rfl, hgs⟩
      | some g =>
        rw [sample_success s name d v g hl hok hgs]
        exact ⟨rfl, rfl, hgs⟩

theorem sample_agree_step (s₁ s₂ : Sampler) (name : String) (d : Dist3)
    (hR : s₁.num_replicas = s₂.num_replicas)
    (hA : s₁.num_agents = s₂.num_agents)
    (hg : s₁.globalSeed = s₂.globalSeed)
    (hv : ∀ n, lookupVar s₁.registry n = lookupVar s₂.registry n) :
    (∀ n, lookupVar (sample s₁ name d).1.registry n =
        lookupVar (sample s₂ name d).1.registry n) ∧
      outputOf (sample s₁ name d).1 name = outputOf (sample s₂ name d).1 name := by
  cases hl : lookupVar s₁.registry name with
  | none =>
    have hl2 : lookupVar s₂.registry name = none := (hv name).symm.trans hl
    rw [sample_not_registered s₁ name d hl, sample_not_registered s₂ name d hl2]
    exact ⟨hv, outputOf_congr s₁ s₂ name (hv name)⟩
  | some v =>
    have hl2 : lookupVar s₂.registry name = some v := (hv name).symm.trans hl
    cases hok : distShapeOk s₁.num_replicas s₁.num_agents v.num_actions d with
    | false =>
      have hokb : distShapeOk s₂.num_replicas s₂.num_agents v.num_actions d =
          false := by rw [← hR, ← hA]; exact hok
      rw [sample_shape_mismatch s₁ name d v hl hok,
        sample_shape_mismatch s₂ name d v hl2 hokb]
      exact ⟨hv, outputOf_congr s₁ s₂ name (hv name)⟩
    | true =>
      have hokb : distShapeOk s₂.num_replicas s₂.num_agents v.num_actions d =
          true := by rw [← hR, ← hA]; exact hok
      cases hgs : s₁.globalSeed with
      | none =>
        have hgs2 : s₂.globalSeed = none := hg.symm.trans hgs
        rw [sample_not_seeded s₁ name d v hl hok hgs,
          sample_not_seeded s₂ name d v hl2 hokb hgs2]
        exact ⟨hv, outputOf_congr s₁ s₂ name (hv name)⟩
      | some g =>
        have hgs2 : s₂.globalSeed = some g := hg.symm.trans hgs
        rw [sample_success s₁ name d v g hl hok hgs,
          sample_success s₂ name d v g hl2 hokb hgs2]
        have hpost : ∀ n,
            lookupVar (updateVar s₁.registry name (kernelWrites d v).2) n =
              lookupVar (updateVar s₂.registry name (kernelWrites d v).2) n := by
          intro n
          by_cases hn : n = name
          · subst hn
            rw [lookupVar_updateVar_self s₁.registry n v (kernelWrites d v).2 hl,
              lookupVar_updateVar_self s₂.registry n v (kernelWrites d v).2 hl2]
          · rw [lookupVar_updateVar_ne s₁.registry name n (kernelWrites d v).2 hn,
              lookupVar_updateVar_ne s₂.registry name n (kernelWrites d v).2 hn]
            exact hv n
        exact ⟨hpost, outputOf_congr _ _ name (hpost name)⟩

/-- C3: determinism / reproducibility — for a fixed global seed and an
identical sequence of `sample` calls, two sampler states agreeing on the
seed, the grid dimensions, and the registry contents produce identical
sequences of read-back action buffers; in particular two runs of the same
seeded program over the same call list reproduce the same actions for every
registered variable. -/
theorem runCalls_reproducible (cs : List (String × Dist3)) :
    ∀ s₁ s₂ : Sampler,
      s₁.num_replicas = s₂.num_replicas →
      s₁.num_agents = s₂.num_agents →
      s₁.globalSeed = s₂.globalSeed →
      (∀ name, lookupVar s₁.registry name = lookupVar s₂.registry name) →
      runCalls s₁ cs = runCalls s₂ cs := by
  induction cs with
  | nil => intro s₁ s₂ _ _ _ _; rfl
  | cons c cs ih =>
    intro s₁ s₂ hR hA hg hv
    obtain ⟨name, d⟩ := c
    have hstep := sample_agree_step s₁ s₂ name d hR hA hg hv
    have hcfg₁ := sample_preserves_config s₁ name d
    have hcfg₂ := sample_preserves_config s₂ name d
    show outputOf (sample s₁ name d).1 name ::
          runCalls (sample s₁ name d).1 cs =
        outputOf (sample s₂ name d).1 name ::
          runCalls (sample s₂ name d).1 cs
    rw [hstep.2, ih (sample s₁ name d).1 (sample s₂ name d).1
      (by rw [hcfg₁.1, hcfg₂.1]; exact hR)
      (by rw [hcfg₁.2.1, hcfg₂.2.1]; exact hA)
      (by rw [hcfg₁.2.2, hcfg₂.2.2]; exact hg)
      hstep.1]

/-- C3 witness: reproducibility instantiated at `wSampler` with a concrete
repeated call list. -/
theorem runCalls_reproducible_w :
    runCalls wSampler [("a", wDist), ("a", wDist)] =
      runCalls wSampler [("a", wDist), ("a", wDist)] :=
  runCalls_reproducible [("a", wDist), ("a", wDist)] wSampler wSampler rfl rfl
    rfl (fun _ => rfl)

/-- C4 counterexample: with global seed 0, the single thread's first uniform
draw is exactly 0, and a one-hot row with probability 1 at index 1 samples
to index 0 (the inclusive `>=` tie-break fires at cumulative sum 0), not to
the hot index 1 — so a one-hot draw does not yield the hot index for every
seed and draw count. -/
theorem sample_onehot_zero_draw_ce :
    (sample cSampler "hot" wHotDist).2.2 = none ∧
      distRow wHotDist 0 0 = oneHotRow 1 0 ∧
      stateDraw cVar 0 0 = 0 ∧
      outCell (sample cSampler "hot" wHotDist).1 "hot" 0 0 = 0 ∧
      outCell (sample cSampler "hot" wHotDist).1 "hot" 0 0 ≠ 1 := by decide

/-- C4 (amended): for every successful sample call whose `(r, a)` row is
one-hot at index `k`, the thread writes exactly `k` whenever its uniform
draw is nonzero — regardless of the seed and of how many prior draws the
thread has made; when the draw is exactly 0, the inclusive `>=` tie-break
selects index 0 instead (see the counterexample). -/
theorem sample_onehot_yields_hot_index
    (s : Sampler) (name : String) (d : Dist3) (v : ActionVariable)
    (hv : lookupVar s.registry name = some v)
    (he : (sample s name d).2.2 = none) (r a : Nat)
    (hr : r < s.num_replicas) (ha : a < s.num_agents)
    (hbr : r < v.randState.length)
    (hba : a < (v.randState.getD r []).length)
    (k t : Nat) (hrow : distRow d r a = oneHotRow k t)
    (hu : stateDraw v r a ≠ 0) :
    outCell (sample s name d).1 name r a = k := by
  have hc := sample_out_cell s name d v hv he r a hr ha hbr hba
  rw [hc, hrow]
  have hu0 : 0 < stateDraw v r a :=
    lt_of_le_of_ne (uniformDraw_nonneg _ _) (Ne.symm hu)
  have hu1 : stateDraw v r a ≤ 1 := le_of_lt (uniformDraw_lt_one _ _)
  exact sampleIndex_oneHotRow _ hu0 hu1 k t

/-- C4 witness: the amended one-hot property instantiated at `wSampler`
(seed 1, whose thread's first draw is nonzero) with the one-hot row at
index 1. -/
theorem sample_onehot_yields_hot_index_w :
    outCell (sample wSampler "a" wHotDist).1 "a" 0 0 = 1 :=
  sample_onehot_yields_hot_index wSampler "a" wHotDist wVar (by decide)
    (by decide) 0 0 (by decide) (by decide) (by decide) (by decide) 1 0
    (by decide) (by decide)

/-- C5: `init_random` (seed_all) gives every thread slot `(r, a)` of every
registered variable a per-thread seed that is a deterministic, injective
function of `(global_seed, linear_thread_index)`: distinct slots never share
a random state, and their uniform streams differ at every draw count, for
every choice of global seed. -/
theorem init_random_distinct_streams
    (s : Sampler) (g : Nat) (name : String) (v : ActionVariable)
    (hv : lookupVar (init_random s g).registry name = some v)
    (r a r' a' : Nat) (hr : r < s.num_replicas) (ha : a < s.num_agents)
    (hr' : r' < s.num_replicas) (ha' : a' < s.num_agents)
    (hne : (r, a) ≠ (r', a')) :
    stateAt v r a ≠ stateAt v r' a' ∧
      ∀ count : Nat,
        uniformDraw (stateAt v r a).threadSeed count ≠
          uniformDraw (stateAt v r' a').threadSeed count := by
  have hmap : lookupVar (init_random s g).registry name =
      Option.map (reseedVar g s.num_replicas s.num_agents)
        (lookupVar s.registry name) :=
    lookupVar_map s.registry (reseedVar g s.num_replicas s.num_agents) name
  rw [hmap] at hv
  obtain ⟨v₀, hv₀, hfv⟩ := Option.map_eq_some'.mp hv
  have hrs : v.randState = initStates g s.num_replicas s.num_agents := by
    rw [← hfv]
    rfl
  have hsa : stateAt v r a = ⟨threadSeedOf g (r * s.num_agents + a), 0⟩ := by
    unfold stateAt
    rw [hrs]
    exact initStates_cell g s.num_replicas s.num_agents r a hr ha
  have hsa' : stateAt v r' a' =
      ⟨threadSeedOf g (r' * s.num_agents + a'), 0⟩ := by
    unfold stateAt
    rw [hrs]
    exact initStates_cell g s.num_replicas s.num_agents r' a' hr' ha'
  have hts : (stateAt v r a).threadSeed = threadSeedOf g (r * s.num_agents + a) := by
    rw [hsa]
  have hts' : (stateAt v r' a').threadSeed =
      threadSeedOf g (r' * s.num_agents + a') := by
    rw [hsa']
  have hseed : (stateAt v r a).threadSeed ≠ (stateAt v r' a').threadSeed := by
    rw [hts, hts']
    unfold threadSeedOf
    intro hpp
    obtain ⟨hre, hae⟩ := linearIdx_inj ha ha' (Nat.pair_eq_pair.mp hpp).2
    exact hne (by rw [hre, hae])
  exact ⟨fun hst => hseed (congrArg RandomState.threadSeed hst),
    fun count => uniformDraw_inj hseed⟩

/-- C5 witness: distinct states and streams instantiated at `uSampler`
(2 replicas, 2 agents, seed 7) for slots `(0, 1)` and `(1, 0)`. -/
theorem init_random_distinct_streams_w :
    stateAt uVar 0 1 ≠ stateAt uVar 1 0 ∧
      ∀ count : Nat,
        uniformDraw (stateAt uVar 0 1).threadSeed count ≠
          uniformDraw (stateAt uVar 1 0).threadSeed count :=
  init_random_distinct_streams uSampler 7 "b" uVar (by decide) 0 1 1 0
    (by decide) (by decide) (by decide) (by decide) (by decide)

/-- C6: `register_actions` fails with `DuplicateRegistration` exactly when
the name is already registered (and succeeds exactly when it is not);
`sample` fails with `NotRegistered` exactly when the name is unknown, with
`ShapeMismatch` exactly when the name is known but the supplied
distribution's extent differs from the registered
`(num_replicas, num_agents, num_actions)`, and with `NotSeeded` exactly when
the name is known, the shape matches, and no seeding call has happened —
each surfaced synchronously at the offending call. -/
theorem errors_exactly_when (s : Sampler) (name : String) (numActions : Nat)
    (d : Dist3) :
    ((register_actions s name numActions).2 =
        some SamplerError.DuplicateRegistration ↔
      (lookupVar s.registry name).isSome = true) ∧
      ((register_actions s name numActions).2 = none ↔
        lookupVar s.registry name = none) ∧
      ((sample s name d).2.2 = some SamplerError.NotRegistered ↔
        lookupVar s.registry name = none) ∧
      ((sample s name d).2.2 = some SamplerError.ShapeMismatch ↔
        ∃ v, lookupVar s.registry name = some v ∧
          distShapeOk s.num_replicas s.num_agents v.num_actions d = false) ∧
      ((sample s name d).2.2 = some SamplerError.NotSeeded ↔
        ∃ v, lookupVar s.registry name = some v ∧
          distShapeOk s.num_replicas s.num_agents v.num_actions d = true ∧
          s.globalSeed = none) := by
  cases hl : lookupVar s.registry name with
  | none =>
    rw [sample_not_registered s name d hl]
    simp [register_actions, hl]
  | some v =>
    cases hok : distShapeOk s.num_replicas s.num_agents v.num_actions d with
    | false =>
      rw [sample_shape_mismatch s name d v hl hok]
      simp [register_actions, hl, hok]
    | true =>
      cases hgs : s.globalSeed with
      | none =>
        rw [sample_not_seeded s name d v hl hok hgs]
        simp [register_actions, hl, hok, hgs]
      | some g =>
        rw [sample_success s name d v g hl hok hgs]
        simp [register_actions, hl, hok, hgs]

/-- C7: every successful sample call on an action variable advances each of
that variable's per-thread random streams by exactly one draw (same thread
seed, draw count + 1) and leaves the registry entry — in particular the
random-state block — of every other registered action variable completely
unchanged. -/
theorem sample_advances_only_called_variable
    (s : Sampler) (name : String) (d : Dist3) (v : ActionVariable)
    (hv : lookupVar s.registry name = some v)
    (he : (sample s name d).2.2 = none) :
    (∃ v', lookupVar (sample s name d).1.registry name = some v' ∧
        v'.randState = advanceBlock v.randState ∧
        ∀ r a, r < v.randState.length →
          a < (v.randState.getD r []).length →
          stateAt v' r a =
            ⟨(stateAt v r a).threadSeed, (stateAt v r a).drawCount + 1⟩) ∧
      ∀ name', name' ≠ name →
        lookupVar (sample s name d).1.registry name' =
          lookupVar s.registry name' := by
  obtain ⟨v₀, g, hv₀, hok, hg⟩ := sample_success_inv s name d he
  have hveq : v₀ = v := by
    rw [hv] at hv₀
    exact (Option.some.inj hv₀).symm
  subst hveq
  rw [sample_success s name d v₀ g hv₀ hok hg]
  dsimp only
  constructor
  · refine ⟨(kernelWrites d v₀).2,
      lookupVar_updateVar_self s.registry name v₀ (kernelWrites d v₀).2 hv₀,
      rfl, ?_⟩
    intro r a hr ha
    unfold stateAt
    have hrw : (kernelWrites d v₀).2.randState = advanceBlock v₀.randState := rfl
    rw [hrw, advanceBlock_cell v₀.randState r a hr ha]
    rfl
  · intro n' hne
    exact lookupVar_updateVar_ne s.registry name n' (kernelWrites d v₀).2 hne

/-- C7 witness: the one-draw advance and non-interference property
instantiated at `wSampler`. -/
theorem sample_advances_only_called_variable_w :
    (∃ v', lookupVar (sample wSampler "a" wDist).1.registry "a" = some v' ∧
        v'.randState = advanceBlock wVar.randState ∧
        ∀ r a, r < wVar.randState.length →
          a < (wVar.randState.getD r []).length →
          stateAt v' r a =
            ⟨(stateAt wVar r a).threadSeed, (stateAt wVar r a).drawCount + 1⟩) ∧
      ∀ name', name' ≠ "a" →
        lookupVar (sample wSampler "a" wDist).1.registry name' =
          lookupVar wSampler.registry name' :=
  sample_advances_only_called_variable wSampler "a" wDist wVar (by decide)
    (by decide)

/-- C8: a sample call that fails before kernel launch (for example with
`ShapeMismatch`) consumes no random draws and leaves the whole sampler
state — including every random-state stream — unchanged, so retrying the
call against the same state yields exactly what the original call would
have produced. -/
theorem failed_sample_preserves_state (s : Sampler) (name : String)
    (d : Dist3) (e : SamplerError)
    (h : (sample s name d).2.2 = some e) :
    (sample s name d).1 = s ∧
      ∀ d', sample (sample s name d).1 name d' = sample s name d' := by
  have h1 : (sample s name d).1 = s := by
    cases hl : lookupVar s.registry name with
    | none => rw [sample_not_registered s name d hl]
    | some v =>
      cases hok : distShapeOk s.num_replicas s.num_agents v.num_actions d with
      | false => rw [sample_shape_mismatch s name d v hl hok]
      | true =>
        cases hgs : s.globalSeed with
        | none => rw [sample_not_seeded s name d v hl hok hgs]
        | some g =>
          rw [sample_success s name d v g hl hok hgs] at h
          simp at h
  exact ⟨h1, fun d' => by rw [h1]⟩

/-- C8 witness: a concrete `ShapeMismatch` failure at `wSampler` leaves the
sampler unchanged and a retry behaves as a first call. -/
theorem failed_sample_preserves_state_w :
    (sample wSampler "a" wBadDist).1 = wSampler ∧
      ∀ d', sample (sample wSampler "a" wBadDist).1 "a" d' =
        sample wSampler "a" d' :=
  failed_sample_preserves_state wSampler "a" wBadDist
    SamplerError.ShapeMismatch (by decide)

/-- C9: `sample` never modifies the caller-supplied distribution buffer —
a single call returns the buffer contents exactly as supplied, and any
number of repeated calls reusing the same buffer leave its contents after
each call equal to its contents before the first call. -/
theorem sample_preserves_distribution (s : Sampler) (name : String)
    (d : Dist3) :
    (sample s name d).2.1 = d ∧
      ∀ k, (runShared name (s, d) k).2 = d := by
  refine ⟨sample_buf s name d, ?_⟩
  have hall : ∀ k (s' : Sampler), (runShared name (s', d) k).2 = d := by
    intro k
    induction k with
    | zero => intro s'; rfl
    | succ k ih =>
      intro s'
      show (runShared name
        ((sample s' name d).1, (sample s' name d).2.1) k).2 = d
      rw [sample_buf s' name d]
      exact ih (sample s' name d).1
  exact fun k => hall k s

/-- C10: seeding may precede registration — on a sampler already seeded by
`init_random`, a variable registered afterwards is in a seeded state, so a
subsequent well-shaped sample call on it succeeds (in particular it does
not fail with `NotSeeded`) without any further seeding call. -/
theorem seed_then_register_then_sample_ok (s : Sampler) (g : Nat)
    (name : String) (numActions : Nat) (d : Dist3) (s' : Sampler)
    (hg : s.globalSeed = some g)
    (hreg : register_actions s name numActions = (s', none))
    (hshape : distShapeOk s.num_replicas s.num_agents numActions d = true) :
    (sample s' name d).2.2 = none := by
  unfold register_actions at hreg
  by_cases hb : (lookupVar s.registry name).isSome
  · rw [if_pos hb] at hreg
    exact absurd (congrArg Prod.snd hreg) (by simp)
  · rw [if_neg hb] at hreg
    have hnone : lookupVar s.registry name = none :=
      Option.not_isSome_iff_eq_none.mp hb
    have hmatch : (match s.globalSeed with
        | some g => initStates g s.num_replicas s.num_agents
        | none => zeroStates s.num_replicas s.num_agents) =
        initStates g s.num_replicas s.num_agents := by rw [hg]
    have hs' : s' = { s with registry := s.registry ++
        [(name, ⟨numActions, zeroBuf s.num_replicas s.num_agents,
          match s.globalSeed with
          | some g => initStates g s.num_replicas s.num_agents
          | none => zeroStates s.num_replicas s.num_agents⟩)] } :=
      (congrArg Prod.fst hreg).symm
    rw [hmatch] at hs'
    subst hs'
    have hlook : lookupVar ({ s with registry := s.registry ++
        [(name, ⟨numActions, zeroBuf s.num_replicas s.num_agents,
          initStates g s.num_replicas s.num_agents⟩)] } : Sampler).registry
          name =
        some ⟨numActions, zeroBuf s.num_replicas s.num_agents,
          initStates g s.num_replicas s.num_agents⟩ :=
      lookupVar_append_self s.registry name _ hnone
    rw [sample_success _ name d _ g hlook hshape hg]

/-- C10 witness: seed, then register, then a successful sample at the
concrete sampler `pSampler`. -/
theorem seed_then_register_then_sample_ok_w :
    (sample pSampler' "x" pDist).2.2 = none :=
  seed_then_register_then_sample_ok pSampler 5 "x" 1 pDist pSampler'
    (by decide) (by decide) (by decide)

end WarpDrive
